import Mathlib

/-!
Verification development for the Aurora OS simulated desktop: the window
manager state machine, the terminal session stack and `su` command, glob
expansion, output redirection, and the desktop icon drop handler.  All
definitions are shallow embeddings of the corresponding TypeScript source;
parts of the corpus that are only documented (the filesystem context, the
grid transforms, the `echo` and `cat` command modules) are modelled from the
specification and marked as such in their doc comments.
-/

namespace Aurora

/-! Window manager, from the `OS` component: `openWindow`, `focusWindow`,
`minimizeWindow` and the restore effect.  A `WindowState` carries the fields
the manager mutates; `content` (a React node regenerated from `ty` and data)
is omitted because no transition reads it. -/

structure WindowState where
  id : String
  ty : String
  title : String
  isMinimized : Bool
  isMaximized : Bool
  posX : Int
  posY : Int
  width : Int
  height : Int
  zIndex : Nat
deriving DecidableEq, Repr

structure OSState where
  windows : List WindowState
  topZ : Nat
deriving DecidableEq, Repr

/-- Embeds `openWindow`: bump `topZIndexRef`, append a window with the new
z-index, default size 900x600 and the offset-cascaded position derived from
the previous window count. -/
def openWindow (s : OSState) (wid ty title : String) : OSState :=
  let newZ := s.topZ + 1
  { windows := s.windows ++ [{
      id := wid, ty := ty, title := title,
      isMinimized := false, isMaximized := false,
      posX := 100 + 30 * (s.windows.length : Int),
      posY := 80 + 30 * (s.windows.length : Int),
      width := 900, height := 600, zIndex := newZ }],
    topZ := newZ }

/-- Embeds `focusWindow`: bump `topZIndexRef` and give the matching window
the new z-index, clearing its minimized flag. -/
def focusWindow (s : OSState) (wid : String) : OSState :=
  let newZ := s.topZ + 1
  { windows := s.windows.map (fun w =>
      if w.id = wid then { w with zIndex := newZ, isMinimized := false } else w),
    topZ := newZ }

/-- The accumulator step of the `reduce` in `minimizeWindow` that picks the
highest-z visible window (`w.zIndex > max.zIndex ? w : max`). -/
def pickTop (mx w : WindowState) : WindowState :=
  if mx.zIndex < w.zIndex then w else mx

/-- Embeds `minimizeWindow`: set the minimized flag on the matching window;
if any visible windows remain, raise the highest-z one of them to a fresh
top z-index. -/
def minimizeWindow (s : OSState) (wid : String) : OSState :=
  let updated := s.windows.map (fun w =>
    if w.id = wid then { w with isMinimized := true } else w)
  let visible := updated.filter (fun w => w.isMinimized = false)
  match visible with
  | [] => { s with windows := updated }
  | v0 :: rest =>
    let topWindow := (v0 :: rest).foldl pickTop v0
    let newZ := s.topZ + 1
    { windows := updated.map (fun w =>
        if w.id = topWindow.id then { w with zIndex := newZ } else w),
      topZ := newZ }

/-- Embeds the window restore effect: the stored session list becomes the
window list and the running top z-index is `Math.max(100, ...zIndices)`. -/
def restoreSessions (sessions : List WindowState) : OSState :=
  { windows := sessions,
    topZ := sessions.foldl (fun m w => max m w.zIndex) 100 }

/-- An open-or-focus call of the window manager, for reasoning about call
sequences. -/
inductive WMOp where
  | openW (wid ty title : String)
  | focusW (wid : String)
deriving DecidableEq, Repr

def wmStep (s : OSState) : WMOp → OSState
  | .openW wid ty title => openWindow s wid ty title
  | .focusW wid => focusWindow s wid

/-- The z-index assigned by each successive open-or-focus call: every call
assigns `topZ + 1` of the state it runs in. -/
def assignedZs (s : OSState) : List WMOp → List Nat
  | [] => []
  | op :: ops => (s.topZ + 1) :: assignedZs (wmStep s op) ops

/-- Concrete restored sessions with stored z-indices 100, 105, 103. -/
def demoSessions : List WindowState :=
  [ { id := "finder-1", ty := "finder", title := "Finder", isMinimized := false,
      isMaximized := false, posX := 100, posY := 80, width := 900, height := 600,
      zIndex := 100 },
    { id := "terminal-1", ty := "terminal", title := "Terminal", isMinimized := false,
      isMaximized := false, posX := 130, posY := 110, width := 900, height := 600,
      zIndex := 105 },
    { id := "settings-1", ty := "settings", title := "System Settings", isMinimized := false,
      isMaximized := false, posX := 160, posY := 140, width := 900, height := 600,
      zIndex := 103 } ]

lemma wmStep_topZ (s : OSState) (op : WMOp) : (wmStep s op).topZ = s.topZ + 1 := by
  cases op <;> rfl

lemma assignedZs_gt (ops : List WMOp) : ∀ (s : OSState), ∀ z ∈ assignedZs s ops, s.topZ < z := by
  induction ops with
  | nil => intro s z hz; simp [assignedZs] at hz
  | cons op ops ih =>
    intro s z hz
    simp only [assignedZs, List.mem_cons] at hz
    rcases hz with h | h
    · omega
    · have := ih (wmStep s op) z h
      rw [wmStep_topZ] at this
      omega

lemma assignedZs_pairwise (ops : List WMOp) :
    ∀ (s : OSState), (assignedZs s ops).Pairwise (· < ·) := by
  induction ops with
  | nil => intro s; simp [assignedZs]
  | cons op ops ih =>
    intro s
    simp only [assignedZs]
    refine List.Pairwise.cons ?_ (ih (wmStep s op))
    intro z hz
    have := assignedZs_gt ops (wmStep s op) z hz
    rw [wmStep_topZ] at this
    omega

/-- C1: z-index assignment is monotonic within a session: along any sequence
of open and focus calls the assigned z-indices are pairwise strictly
increasing (never reused or decremented); an open gives the new window a
z-index strictly above every existing window and places it at the new top;
a focus gives every window carrying the focused id the new strict top
z-index and clears its minimized flag, while every other window stays
strictly below. -/
theorem window_zindex_monotonic (s : OSState) (ops : List WMOp)
    (wid ty title fid : String)
    (hinv : ∀ w ∈ s.windows, w.zIndex ≤ s.topZ) :
    ((assignedZs s ops).Pairwise (· < ·))
    ∧ (∀ w ∈ s.windows, w.zIndex < (openWindow s wid ty title).topZ)
    ∧ ((openWindow s wid ty title).windows.getLast?.map (fun w => w.zIndex)
        = some (openWindow s wid ty title).topZ)
    ∧ (∀ w ∈ (focusWindow s fid).windows,
        (w.id = fid → w.zIndex = (focusWindow s fid).topZ ∧ w.isMinimized = false)
        ∧ (w.id ≠ fid → w.zIndex < (focusWindow s fid).topZ)) := by
  refine ⟨assignedZs_pairwise ops s, ?_, ?_, ?_⟩
  · intro w hw
    have := hinv w hw
    simp only [openWindow]
    omega
  · simp [openWindow]
  · intro w hw
    simp only [focusWindow, List.mem_map] at hw
    obtain ⟨u, hu, hwu⟩ := hw
    by_cases hid : u.id = fid
    · subst hwu
      rw [if_pos hid]
      constructor
      · intro _; exact ⟨rfl, rfl⟩
      · intro hne; exact absurd hid hne
    · subst hwu
      rw [if_neg hid]
      constructor
      · intro h; exact absurd h hid
      · intro _
        have := hinv u hu
        simp only [focusWindow]
        omega

/-- C1 witness: the theorem applied to a concrete one-window state and a
concrete open-then-focus call sequence. -/
theorem window_zindex_monotonic_witness :
    ((assignedZs { windows := demoSessions, topZ := 105 }
        [WMOp.openW "photos-9" "photos" "Photos", WMOp.focusW "finder-1"]).Pairwise (· < ·))
    ∧ (∀ w ∈ demoSessions,
        w.zIndex < (openWindow { windows := demoSessions, topZ := 105 } "photos-9" "photos" "Photos").topZ)
    ∧ ((openWindow { windows := demoSessions, topZ := 105 } "photos-9" "photos" "Photos").windows.getLast?.map (fun w => w.zIndex)
        = some (openWindow { windows := demoSessions, topZ := 105 } "photos-9" "photos" "Photos").topZ)
    ∧ (∀ w ∈ (focusWindow { windows := demoSessions, topZ := 105 } "finder-1").windows,
        (w.id = "finder-1" →
          w.zIndex = (focusWindow { windows := demoSessions, topZ := 105 } "finder-1").topZ
          ∧ w.isMinimized = false)
        ∧ (w.id ≠ "finder-1" →
          w.zIndex < (focusWindow { windows := demoSessions, topZ := 105 } "finder-1").topZ)) :=
  window_zindex_monotonic { windows := demoSessions, topZ := 105 }
    [WMOp.openW "photos-9" "photos" "Photos", WMOp.focusW "finder-1"]
    "photos-9" "photos" "Photos" "finder-1" (by decide)

lemma foldl_max_init_le (l : List WindowState) :
    ∀ a : Nat, a ≤ l.foldl (fun m w => max m w.zIndex) a := by
  induction l with
  | nil => intro a; simp
  | cons w ws ih =>
    intro a
    calc a ≤ max a w.zIndex := le_max_left _ _
    _ ≤ ws.foldl (fun m v => max m v.zIndex) (max a w.zIndex) := ih _

lemma foldl_max_mem_le (l : List WindowState) :
    ∀ (a : Nat), ∀ w ∈ l, w.zIndex ≤ l.foldl (fun m v => max m v.zIndex) a := by
  induction l with
  | nil => intro a w hw; simp at hw
  | cons v vs ih =>
    intro a w hw
    rcases List.mem_cons.mp hw with h | h
    · subst h
      calc w.zIndex ≤ max a w.zIndex := le_max_right _ _
      _ ≤ vs.foldl (fun m u => max m u.zIndex) (max a w.zIndex) := foldl_max_init_le vs _
    · exact ih _ w h

lemma foldl_max_eq_init_or_mem (l : List WindowState) :
    ∀ (a : Nat), l.foldl (fun m w => max m w.zIndex) a = a
      ∨ ∃ w ∈ l, l.foldl (fun m v => max m v.zIndex) a = w.zIndex := by
  induction l with
  | nil => intro a; left; rfl
  | cons v vs ih =>
    intro a
    rcases ih (max a v.zIndex) with h | ⟨w, hw, hval⟩
    · by_cases hav : v.zIndex ≤ a
      · left
        simpa [List.foldl_cons, max_eq_left hav] using h
      · right
        refine ⟨v, List.mem_cons_self _ _, ?_⟩
        have : max a v.zIndex = v.zIndex := max_eq_right (le_of_not_le hav)
        simpa [List.foldl_cons, this] using h
    · right
      exact ⟨w, List.mem_cons_of_mem _ hw, hval⟩

/-- C2: after restoring a persisted session list the running top z-index is
the maximum of the restored z-indices with floor 100 (it is at least 100, an
upper bound of all restored z-indices, and attained at 100 or at some
restored window), and the next open or focus call assigns exactly one above
it; restoring stored z-indices [100, 105, 103] makes the next assigned
z-index 106. -/
theorem restore_zindex_floor (sessions : List WindowState) (wid ty title fid : String) :
    (100 ≤ (restoreSessions sessions).topZ)
    ∧ (∀ w ∈ sessions, w.zIndex ≤ (restoreSessions sessions).topZ)
    ∧ ((restoreSessions sessions).topZ = 100
        ∨ ∃ w ∈ sessions, w.zIndex = (restoreSessions sessions).topZ)
    ∧ ((restoreSessions sessions).windows = sessions)
    ∧ ((openWindow (restoreSessions sessions) wid ty title).windows.getLast?.map (fun w => w.zIndex)
        = some ((restoreSessions sessions).topZ + 1))
    ∧ ((focusWindow (restoreSessions sessions) fid).topZ = (restoreSessions sessions).topZ + 1)
    ∧ ((restoreSessions demoSessions).topZ = 105
        ∧ (openWindow (restoreSessions demoSessions) wid ty title).topZ = 106) := by
  refine ⟨foldl_max_init_le sessions 100, ?_, ?_, rfl, ?_, rfl, by decide, rfl⟩
  · intro w hw
    exact foldl_max_mem_le sessions 100 w hw
  · rcases foldl_max_eq_init_or_mem sessions 100 with h | ⟨w, hw, hval⟩
    · left; exact h
    · right; exact ⟨w, hw, hval.symm⟩
  · simp [openWindow]

/-! Terminal privilege-session stack, from the `Terminal` component: the
stack of usernames is initialised with the logged-in user, `pushSession`
appends and `closeSession` pops only while more than one entry remains.
The effective user for filesystem calls is the top of the stack. -/

def pushSession (stack : List String) (username : String) : List String :=
  stack ++ [username]

def closeSession (stack : List String) : List String :=
  if stack.length > 1 then stack.dropLast else stack

/-- Embeds `activeTerminalUser`: the last stack entry, else the globally
logged-in user, else the literal guest fallback. -/
def activeTerminalUser (stack : List String) (currentUser : Option String) : String :=
  match stack.getLast? with
  | some u => u
  | none =>
    match currentUser with
    | some c => c
    | none => "guest"

/-- A push or pop issued against a session stack. -/
inductive SessOp where
  | push (u : String)
  | pop
deriving DecidableEq, Repr

def sessStep (stack : List String) : SessOp → List String
  | .push u => pushSession stack u
  | .pop => closeSession stack

def applySessOps (stack : List String) : List SessOp → List String
  | [] => stack
  | op :: ops => applySessOps (sessStep stack op) ops

lemma sess_invariant (ops : List SessOp) (base : String) :
    ∀ stack : List String, stack.head? = some base →
      (applySessOps stack ops).head? = some base ∧ applySessOps stack ops ≠ [] := by
  induction ops with
  | nil =>
    intro stack h
    refine ⟨h, ?_⟩
    intro hnil
    simp only [applySessOps] at hnil
    rw [hnil] at h
    simp at h
  | cons op ops ih =>
    intro stack h
    apply ih
    cases op with
    | push u =>
      cases stack with
      | nil => simp at h
      | cons a rest => simpa [sessStep, pushSession] using h
    | pop =>
      cases stack with
      | nil => simp at h
      | cons a rest =>
        simp only [sessStep, closeSession]
        by_cases hlen : (a :: rest).length > 1
        · rw [if_pos hlen]
          cases rest with
          | nil => simp at hlen
          | cons b rs => simpa [List.dropLast] using h
        · rw [if_neg hlen]
          exact h

/-- C7: starting from the initialised base session, no sequence of pushes
and pops empties the stack or removes the base username at the bottom, and
a pop with exactly one entry left is a no-op. -/
theorem session_stack_nonempty (base : String) (ops : List SessOp) :
    applySessOps [base] ops ≠ []
    ∧ (applySessOps [base] ops).head? = some base
    ∧ closeSession [base] = [base] := by
  have h := sess_invariant ops base [base] rfl
  exact ⟨h.2, h.1, rfl⟩

/-! The `su` terminal command, from `src/utils/terminal/commands` (the file
bundled in `fileAssociations.ts`).  A user record carries the fields of the
documented `User` interface; `su` reads only `username` and `password`. -/

structure User where
  username : String
  password : Option String
  uid : Nat
  gid : Nat
  fullName : String
  homeDir : String
  shell : String
deriving DecidableEq, Repr

/-- The observable result of one `su` invocation: the output lines, the
error flag (absent in the source means false), and the username passed to
`spawnSession` when a session is pushed. -/
structure SuOutcome where
  output : List String
  error : Bool
  pushed : Option String
deriving DecidableEq, Repr

/-- Embeds the `su` command body: default target root and empty password
from the argument list, the already-logged-in short-circuit, the existence
lookup, and the non-root password check (a missing password argument always
fails with a usage error; a supplied one must equal the stored password). -/
def su (args : List String) (users : List User) (terminalUser : String) : SuOutcome :=
  let targetUser := match args.head? with
    | some a => a
    | none => "root"
  let password := match args with
    | _ :: p :: _ => p
    | _ => ""
  if targetUser = terminalUser then
    { output := ["Already logged in as " ++ targetUser], error := false, pushed := none }
  else
    match users.find? (fun u => u.username = targetUser) with
    | none =>
      { output := ["su: user " ++ targetUser ++ " does not exist"], error := true, pushed := none }
    | some user =>
      if !(terminalUser = "root") then
        if !(password = "") then
          if !(user.password = some password) then
            { output := ["su: Authentication failure"], error := true, pushed := none }
          else
            { output := ["Logged in as " ++ targetUser], error := false, pushed := some targetUser }
        else
          { output := ["su: Password required (usage: su <user> <pass>)"], error := true, pushed := none }
      else
        { output := ["Logged in as " ++ targetUser], error := false, pushed := some targetUser }

/-- Applies the session effect of an `su` outcome to a terminal's stack:
`spawnSession` appends the target, otherwise the stack is untouched. -/
def applySu (stack : List String) (r : SuOutcome) : List String :=
  match r.pushed with
  | some u => pushSession stack u
  | none => stack

/-- C3: for a non-root acting user invoking `su target pass` on an existing
target different from itself, a wrong password yields the authentication
failure error with the session stack unchanged, and the right password
pushes the target onto the stack so that the effective terminal user (to
which all filesystem calls are bound) becomes the target; a non-existent
target fails without a push, and a root acting user switches with no
password at all. -/
theorem su_authentication (users : List User) (terminalUser : String)
    (stack : List String) (u : User) (target pass : String) (cu : Option String)
    (hne : target ≠ terminalUser) :
    ((terminalUser ≠ "root" → pass ≠ "" →
        users.find? (fun v => v.username = target) = some u →
        u.password ≠ some pass →
        (su [target, pass] users terminalUser).error = true
        ∧ (su [target, pass] users terminalUser).output = ["su: Authentication failure"]
        ∧ applySu stack (su [target, pass] users terminalUser) = stack))
    ∧ ((terminalUser ≠ "root" → pass ≠ "" →
        users.find? (fun v => v.username = target) = some u →
        u.password = some pass →
        (su [target, pass] users terminalUser).error = false
        ∧ applySu stack (su [target, pass] users terminalUser) = stack ++ [target]
        ∧ activeTerminalUser (applySu stack (su [target, pass] users terminalUser)) cu = target))
    ∧ ((users.find? (fun v => v.username = target) = none →
        (su [target, pass] users terminalUser).error = true
        ∧ applySu stack (su [target, pass] users terminalUser) = stack))
    ∧ ((terminalUser = "root" →
        users.find? (fun v => v.username = target) = some u →
        (su [target] users terminalUser).error = false
        ∧ applySu stack (su [target] users terminalUser) = stack ++ [target])) := by
  refine ⟨?_, ?_, ?_, ?_⟩
  · intro hroot hpass hfind hmatch
    simp only [su, List.head?, if_neg hne, hfind]
    rw [if_pos (by simpa using hroot), if_pos (by simpa using hpass),
      if_pos (by simpa using hmatch)]
    simp [applySu]
  · intro hroot hpass hfind hmatch
    simp only [su, List.head?, if_neg hne, hfind]
    rw [if_pos (by simpa using hroot), if_pos (by simpa using hpass),
      if_neg (by simpa using hmatch)]
    refine ⟨by simp, by simp [applySu, pushSession], ?_⟩
    simp [applySu, pushSession, activeTerminalUser, List.getLast?_concat]
  · intro hfind
    simp only [su, List.head?, if_neg hne, hfind]
    simp [applySu]
  · intro hroot hfind
    simp only [su, List.head?, if_neg hne, hfind]
    rw [if_neg (by simpa using hroot)]
    simp [applySu, pushSession]

/-- The user database used by the concrete `su` scenarios. -/
def demoUsers : List User :=
  [ { username := "root", password := some "admin", uid := 0, gid := 0,
      fullName := "root", homeDir := "/root", shell := "/bin/zsh" },
    { username := "alice", password := some "secret", uid := 1000, gid := 1000,
      fullName := "Alice", homeDir := "/home/alice", shell := "/bin/zsh" } ]

/-- C3 witness: applying the theorem with the concrete user database, a
wrong-password attempt, a right-password attempt, a missing user and a root
switch. -/
theorem su_authentication_witness :
    ((su ["alice", "wrongpass"] demoUsers "bob").error = true
      ∧ (su ["alice", "wrongpass"] demoUsers "bob").output = ["su: Authentication failure"]
      ∧ applySu ["bob"] (su ["alice", "wrongpass"] demoUsers "bob") = ["bob"])
    ∧ ((su ["alice", "secret"] demoUsers "bob").error = false
      ∧ applySu ["bob"] (su ["alice", "secret"] demoUsers "bob") = ["bob", "alice"]
      ∧ activeTerminalUser (applySu ["bob"] (su ["alice", "secret"] demoUsers "bob")) (some "bob") = "alice")
    ∧ ((su ["carol", "x"] demoUsers "bob").error = true
      ∧ applySu ["bob"] (su ["carol", "x"] demoUsers "bob") = ["bob"])
    ∧ ((su ["alice"] demoUsers "root").error = false
      ∧ applySu ["root"] (su ["alice"] demoUsers "root") = ["root", "alice"]) := by
  refine ⟨?_, ?_, ?_, ?_⟩
  · exact (su_authentication demoUsers "bob" ["bob"]
      { username := "alice", password := some "secret", uid := 1000, gid := 1000,
        fullName := "Alice", homeDir := "/home/alice", shell := "/bin/zsh" }
      "alice" "wrongpass" (some "bob") (by decide)).1
      (by decide) (by decide) (by decide) (by decide)
  · exact (su_authentication demoUsers "bob" ["bob"]
      { username := "alice", password := some "secret", uid := 1000, gid := 1000,
        fullName := "Alice", homeDir := "/home/alice", shell := "/bin/zsh" }
      "alice" "secret" (some "bob") (by decide)).2.1
      (by decide) (by decide) (by decide) (by decide)
  · exact (su_authentication demoUsers "bob" ["bob"]
      { username := "alice", password := some "secret", uid := 1000, gid := 1000,
        fullName := "Alice", homeDir := "/home/alice", shell := "/bin/zsh" }
      "carol" "x" (some "bob") (by decide)).2.2.1 (by decide)
  · exact (su_authentication demoUsers "root" ["root"]
      { username := "alice", password := some "secret", uid := 1000, gid := 1000,
        fullName := "Alice", homeDir := "/home/alice", shell := "/bin/zsh" }
      "alice" "" (some "root") (by decide)).2.2.2 (by decide) (by decide)

/-- C10: invoking `su` with the target equal to the current effective user
answers with the already-logged-in message, no error flag and no session
push, before any existence or password check: the theorem quantifies over
an arbitrary user database (the target need not exist in it) and an
arbitrary password argument. -/
theorem su_already_logged_in (args : List String) (users : List User)
    (terminalUser : String) (stack : List String)
    (h : args.head? = some terminalUser) :
    (su args users terminalUser).output = ["Already logged in as " ++ terminalUser]
    ∧ (su args users terminalUser).error = false
    ∧ applySu stack (su args users terminalUser) = stack := by
  cases args with
  | nil => simp at h
  | cons a rest =>
    simp only [List.head?, Option.some.injEq] at h
    subst h
    simp only [su, List.head?, if_pos rfl]
    exact ⟨rfl, rfl, rfl⟩

/-- C10 witness: the theorem applied with an empty user database (the
target does not exist) and a password argument, showing neither check runs. -/
theorem su_already_logged_in_witness :
    (su ["alice", "whatever"] [] "alice").output = ["Already logged in as alice"]
    ∧ (su ["alice", "whatever"] [] "alice").error = false
    ∧ applySu ["alice"] (su ["alice", "whatever"] [] "alice") = ["alice"] :=
  su_already_logged_in ["alice", "whatever"] [] "alice" ["alice"] (by decide)

lemma pickTop_foldl_mem (l : List WindowState) :
    ∀ init : WindowState, l.foldl pickTop init = init ∨ l.foldl pickTop init ∈ l := by
  induction l with
  | nil => intro init; left; rfl
  | cons v vs ih =>
    intro init
    rcases ih (pickTop init v) with h | h
    · rw [List.foldl_cons, h]
      unfold pickTop
      by_cases hlt : init.zIndex < v.zIndex
      · rw [if_pos hlt]; right; exact List.mem_cons_self _ _
      · rw [if_neg hlt]; left; rfl
    · right
      rw [List.foldl_cons]
      exact List.mem_cons_of_mem _ h

lemma pickTop_foldl_init_le (l : List WindowState) :
    ∀ init : WindowState, init.zIndex ≤ (l.foldl pickTop init).zIndex := by
  induction l with
  | nil => intro init; exact le_refl _
  | cons v vs ih =>
    intro init
    rw [List.foldl_cons]
    refine le_trans ?_ (ih (pickTop init v))
    unfold pickTop
    by_cases hlt : init.zIndex < v.zIndex
    · rw [if_pos hlt]; omega
    · rw [if_neg hlt]

lemma pickTop_foldl_le (l : List WindowState) :
    ∀ init : WindowState, ∀ x ∈ l, x.zIndex ≤ (l.foldl pickTop init).zIndex := by
  induction l with
  | nil => intro init x hx; simp at hx
  | cons v vs ih =>
    intro init x hx
    rcases List.mem_cons.mp hx with h | h
    · subst h
      rw [List.foldl_cons]
      refine le_trans ?_ (pickTop_foldl_init_le vs (pickTop init x))
      unfold pickTop
      by_cases hlt : init.zIndex < x.zIndex
      · rw [if_pos hlt]
      · rw [if_neg hlt]; omega
    · rw [List.foldl_cons]
      exact ih (pickTop init v) x h

lemma map_minFlag_id (l : List WindowState) (wid : String) :
    (l.map (fun w => if w.id = wid then { w with isMinimized := true } else w)).map
        (fun w => w.id)
      = l.map (fun w => w.id) := by
  induction l with
  | nil => rfl
  | cons v vs ih =>
    simp only [List.map_cons, List.cons.injEq]
    refine ⟨?_, ih⟩
    by_cases h : v.id = wid
    · rw [if_pos h]
    · rw [if_neg h]

/-- C6: minimizing a window while it is strictly topmost sets its minimized
flag, and when another visible window remains, the next-highest remaining
visible window becomes the unique strictly topmost window: its z-index ends
strictly above every other window's. -/
theorem minimize_transfers_top (s : OSState) (wid : String) (w0 v1 : WindowState)
    (hids : (s.windows.map (fun w => w.id)).Nodup)
    (hinv : ∀ w ∈ s.windows, w.zIndex ≤ s.topZ)
    (hw0 : w0 ∈ s.windows) (hw0id : w0.id = wid)
    (htop : ∀ w ∈ s.windows, w.id ≠ wid → w.zIndex < w0.zIndex)
    (hv1 : v1 ∈ s.windows) (hv1id : v1.id ≠ wid) (hv1vis : v1.isMinimized = false) :
    (∀ w ∈ (minimizeWindow s wid).windows, w.id = wid → w.isMinimized = true)
    ∧ ∃ t ∈ (minimizeWindow s wid).windows,
        t.isMinimized = false
        ∧ (∀ w ∈ (minimizeWindow s wid).windows, w.id = t.id → w = t)
        ∧ (∀ w ∈ (minimizeWindow s wid).windows, w.id ≠ t.id → w.zIndex < t.zIndex)
        ∧ ∃ t0 ∈ s.windows, t0.id = t.id ∧ t0.isMinimized = false ∧ t0.id ≠ wid
            ∧ ∀ v ∈ s.windows, v.id ≠ wid → v.isMinimized = false →
                v.zIndex ≤ t0.zIndex := by
  have hFid : ∀ w : WindowState,
      (if w.id = wid then { w with isMinimized := true } else w).id = w.id := by
    intro w; by_cases h : w.id = wid
    · rw [if_pos h]
    · rw [if_neg h]
  have hFz : ∀ w : WindowState,
      (if w.id = wid then { w with isMinimized := true } else w).zIndex = w.zIndex := by
    intro w; by_cases h : w.id = wid
    · rw [if_pos h]
    · rw [if_neg h]
  have hv1F : (if v1.id = wid then { v1 with isMinimized := true } else v1) = v1 :=
    if_neg hv1id
  have hv1mem : v1 ∈ (s.windows.map
      (fun w => if w.id = wid then { w with isMinimized := true } else w)).filter
      (fun w => w.isMinimized = false) := by
    refine List.mem_filter.mpr ⟨?_, by simp [hv1vis]⟩
    rw [← hv1F]
    exact List.mem_map_of_mem _ hv1
  simp only [minimizeWindow]
  split
  next hnil =>
    rw [hnil] at hv1mem
    simp at hv1mem
  next v0 rest hcons =>
    set F := fun w : WindowState =>
      if w.id = wid then { w with isMinimized := true } else w with hF
    set U := s.windows.map F with hU
    set tw := (v0 :: rest).foldl pickTop v0 with htw
    have htwV : tw ∈ v0 :: rest := by
      rcases pickTop_foldl_mem (v0 :: rest) v0 with h | h
      · rw [htw, h]; exact List.mem_cons_self _ _
      · exact h
    have htwfil : tw ∈ U.filter (fun w => w.isMinimized = false) := by
      rw [hcons]; exact htwV
    have htwU : tw ∈ U := (List.mem_filter.mp htwfil).1
    have htwmin : tw.isMinimized = false := by
      have := (List.mem_filter.mp htwfil).2
      simpa using this
    obtain ⟨o, ho, hFo⟩ := List.mem_map.mp htwU
    have hoid : o.id ≠ wid := by
      intro hoeq
      have : tw.isMinimized = true := by
        rw [← hFo, hF]
        simp only [if_pos hoeq]
      rw [htwmin] at this
      exact Bool.false_ne_true this
    have hotw : o = tw := by
      rw [← hFo, hF]
      simp only [if_neg hoid]
    constructor
    · intro w hwmem hwid
      simp only [List.mem_map] at hwmem
      obtain ⟨u, huU, hGu⟩ := hwmem
      obtain ⟨o2, ho2, hFo2⟩ := List.mem_map.mp huU
      have hwu_min : w.isMinimized = u.isMinimized := by
        rw [← hGu]
        by_cases h : u.id = tw.id
        · rw [if_pos h]
        · rw [if_neg h]
      have hwu_id : w.id = u.id := by
        rw [← hGu]
        by_cases h : u.id = tw.id
        · rw [if_pos h]
        · rw [if_neg h]
      by_cases ho2id : o2.id = wid
      · have : u.isMinimized = true := by
          rw [← hFo2, hF]; simp only [if_pos ho2id]
        rw [hwu_min, this]
      · exfalso
        have : u = o2 := by rw [← hFo2, hF]; simp only [if_neg ho2id]
        rw [hwu_id, this] at hwid
        exact ho2id hwid
    · have hUids : U.map (fun w => w.id) = s.windows.map (fun w => w.id) :=
        map_minFlag_id s.windows wid
      have hUnodup : (U.map (fun w => w.id)).Nodup := by rw [hUids]; exact hids
      refine ⟨{ tw with zIndex := s.topZ + 1 }, ?_, htwmin, ?_, ?_, tw, ?_, rfl,
        htwmin, ?_, ?_⟩
      · refine List.mem_map.mpr ⟨tw, htwU, ?_⟩
        simp
      · intro w hwmem hwid
        simp only [List.mem_map] at hwmem
        obtain ⟨u, huU, hGu⟩ := hwmem
        have huid : u.id = tw.id := by
          have : w.id = u.id := by
            rw [← hGu]
            by_cases h : u.id = tw.id
            · rw [if_pos h]
            · rw [if_neg h]
          rw [← this, hwid]
        have hutw : u = tw := List.inj_on_of_nodup_map hUnodup huU htwU huid
        rw [← hGu, hutw]
        simp
      · intro w hwmem hwid
        simp only [List.mem_map] at hwmem
        obtain ⟨u, huU, hGu⟩ := hwmem
        by_cases h : u.id = tw.id
        · exfalso
          apply hwid
          rw [← hGu, if_pos h]
          exact h
        · have hwu : w = u := by rw [← hGu, if_neg h]
          obtain ⟨o2, ho2, hFo2⟩ := List.mem_map.mp huU
          have hz : w.zIndex = o2.zIndex := by rw [hwu, ← hFo2]; exact hFz o2
          have hle := hinv o2 ho2
          show w.zIndex < s.topZ + 1
          omega
      · rw [← hotw]; exact ho
      · rw [← hotw]
        exact hoid
      · intro v hvS hvid hvvis
        have hvF : F v = v := by rw [hF]; simp only [if_neg hvid]
        have hvU : v ∈ U := by rw [← hvF]; exact List.mem_map_of_mem _ hvS
        have hvfil : v ∈ U.filter (fun w => w.isMinimized = false) :=
          List.mem_filter.mpr ⟨hvU, by simp [hvvis]⟩
        rw [hcons] at hvfil
        exact pickTop_foldl_le (v0 :: rest) v0 v hvfil

/-- A concrete two-window state whose topmost window is about to be
minimized: window a is strictly topmost at z-index 102, window b is visible
at z-index 101. -/
def demoMinState : OSState :=
  { windows :=
      [ { id := "a", ty := "finder", title := "Finder", isMinimized := false,
          isMaximized := false, posX := 100, posY := 80, width := 900, height := 600,
          zIndex := 102 },
        { id := "b", ty := "terminal", title := "Terminal", isMinimized := false,
          isMaximized := false, posX := 130, posY := 110, width := 900, height := 600,
          zIndex := 101 } ],
    topZ := 102 }

/-- C6 witness: the theorem applied to the concrete two-window state, with
all hypotheses discharged by evaluation. -/
theorem minimize_transfers_top_witness :
    (∀ w ∈ (minimizeWindow demoMinState "a").windows, w.id = "a" → w.isMinimized = true)
    ∧ ∃ t ∈ (minimizeWindow demoMinState "a").windows,
        t.isMinimized = false
        ∧ (∀ w ∈ (minimizeWindow demoMinState "a").windows, w.id = t.id → w = t)
        ∧ (∀ w ∈ (minimizeWindow demoMinState "a").windows, w.id ≠ t.id → w.zIndex < t.zIndex)
        ∧ ∃ t0 ∈ demoMinState.windows, t0.id = t.id ∧ t0.isMinimized = false ∧ t0.id ≠ "a"
            ∧ ∀ v ∈ demoMinState.windows, v.id ≠ "a" → v.isMinimized = false →
                v.zIndex ≤ t0.zIndex :=
  minimize_transfers_top demoMinState "a"
    { id := "a", ty := "finder", title := "Finder", isMinimized := false,
      isMaximized := false, posX := 100, posY := 80, width := 900, height := 600,
      zIndex := 102 }
    { id := "b", ty := "terminal", title := "Terminal", isMinimized := false,
      isMaximized := false, posX := 130, posY := 110, width := 900, height := 600,
      zIndex := 101 }
    (by decide) (by decide) (by decide) (by decide) (by decide) (by decide)
    (by decide) (by decide)

/-! Output redirection, from `executeCommand` in the `Terminal` component:
the parse of `>` and `>>`, and the write-back step applied to the produced
output lines. -/

/-- One element of a command's `(string | ReactNode)[]` output: a string
line, a number line (JavaScript allows numbers through the redirection
filter), or a rich node. -/
inductive OutLine where
  | str (s : String)
  | num (n : Int)
  | node
deriving DecidableEq, Repr

/-- The text the redirection filter extracts from an output element
(`typeof o === 'string' || typeof o === 'number'`, numbers rendered in
decimal by `join`). -/
def lineText : OutLine → Option String
  | .str s => some s
  | .num n => some (toString n)
  | .node => none

/-- Modelled from the spec: the `FileSystemContext` implementation is not in
the corpus (only its documented interface).  The redirection step only needs
`readFile` (null on a missing file) and `writeFile` (boolean success); this
flat path-to-content map with a write-denied path list stands for the
documented tree with permission failures. -/
structure SimFS where
  files : List (String × String)
  denied : List String
deriving DecidableEq, Repr

/-- Modelled from the spec: `readFile(path)` returns the content or null. -/
def readFile (fs : SimFS) (p : String) : Option String :=
  (fs.files.find? (fun e => e.1 = p)).map (fun e => e.2)

def setFile : List (String × String) → String → String → List (String × String)
  | [], p, c => [(p, c)]
  | e :: rest, p, c => if e.1 = p then (p, c) :: rest else e :: setFile rest p c

/-- Modelled from the spec: `writeFile(path, content)` succeeds unless the
filesystem denies the write (missing target plus no write permission in the
documented tree). -/
def writeFile (fs : SimFS) (p c : String) : Option SimFS :=
  if fs.denied.contains p then none
  else some { fs with files := setFile fs.files p c }

/-- Tests whether the first list is a leading run of the second, used by the
executable model of the JavaScript `String.prototype.split`. -/
def leadsList : List Char → List Char → Bool
  | [], _ => true
  | _ :: _, [] => false
  | a :: as, b :: bs => a = b && leadsList as bs

/-- Fuel-driven splitter behind `splitOnJS`; the fuel is the input length,
which suffices because every step consumes at least one character. -/
def splitOnF (sep : List Char) : Nat → List Char → List Char → List (List Char)
  | 0, s, acc => [acc.reverse ++ s]
  | fuel + 1, s, acc =>
    match s with
    | [] => [acc.reverse]
    | c :: rest =>
      if sep.length > 0 && leadsList sep (c :: rest) then
        acc.reverse :: splitOnF sep fuel ((c :: rest).drop sep.length) []
      else splitOnF sep fuel rest (c :: acc)

/-- Executable model of the JavaScript `split` with a non-empty string
separator, as used on `>>`, `>` and newline (the standard library splitter
does not evaluate inside the kernel). -/
def splitOnJS (s sep : String) : List String :=
  if sep = "" then [s]
  else (splitOnF sep.data s.data.length s.data []).map (fun l => String.mk l)

/-- Executable model of the JavaScript `trim`. -/
def trimJS (s : String) : String :=
  String.mk (((s.data.dropWhile Char.isWhitespace).reverse.dropWhile
    Char.isWhitespace).reverse)

/-- Splits a character list at every character satisfying the predicate. -/
def splitChars (p : Char → Bool) : List Char → List Char → List (List Char)
  | acc, [] => [acc.reverse]
  | acc, c :: rest =>
    if p c then acc.reverse :: splitChars p [] rest
    else splitChars p (c :: acc) rest

/-- Embeds the redirection parse of `executeCommand`: split on the first
`>>` (append) else on the first `>` (overwrite); the left part trimmed is
the command line, the right part trimmed is the target path. -/
def parseRedirect (trimmed : String) : String × Option String × Bool :=
  let parts2 := splitOnJS trimmed ">>"
  if parts2.length ≥ 2 then
    (trimJS (parts2.headD ""), some (trimJS ((parts2.drop 1).headD "")), true)
  else
    let parts1 := splitOnJS trimmed ">"
    if parts1.length ≥ 2 then
      (trimJS (parts1.headD ""), some (trimJS ((parts1.drop 1).headD "")), false)
    else (trimmed, none, false)

/-- Embeds the whitespace tokenization `commandStr.split(/\s+/)` on an
already-trimmed command string: split at every whitespace character and
drop the empty pieces. -/
def tokenize (s : String) : List String :=
  ((splitChars (fun c => c.isWhitespace) [] s.data).map (fun l => String.mk l)).filter
    (fun t => !(t = ""))

/-- Embeds the redirection write-back of `executeCommand`: join the string
and number lines with newlines; if a target was parsed and the text is
non-empty, write (prepending the existing content plus a newline in append
mode when that content is non-empty); a failed write replaces the output
with an error line and sets the error flag, a successful one suppresses the
visible output. -/
def applyRedirect (fs : SimFS) (output : List OutLine) (error : Bool)
    (redirectPath : Option String) (appendMode : Bool) : SimFS × List OutLine × Bool :=
  match redirectPath with
  | none => (fs, output, error)
  | some rp =>
    if rp = "" then (fs, output, error)
    else
      let textContent := String.intercalate "\n" (output.filterMap lineText)
      if textContent = "" then (fs, output, error)
      else
        let finalContent :=
          match readFile fs rp with
          | some existing =>
            if appendMode && !(existing = "") then existing ++ "\n" ++ textContent
            else textContent
          | none => textContent
        match writeFile fs rp finalContent with
        | none => (fs, [OutLine.str ("Failed to write to " ++ rp)], true)
        | some fs2 => (fs2, [], error)

/-- Modelled from the spec: the `echo` command module is not in the corpus;
per the spec scenario `echo hello > /tmp/out.txt` writes `hello`, so echo
outputs its arguments joined by single spaces as one string line. -/
def echoCmd (args : List String) : List OutLine :=
  [OutLine.str (String.intercalate " " args)]

/-- Modelled from the spec: the `cat` command module is not in the corpus;
per the spec scenario cat outputs the file content as its lines, and a
missing file is a not-found error. -/
def catCmd (fs : SimFS) (p : String) : List OutLine × Bool :=
  match readFile fs p with
  | some c => ((splitOnJS c "\n").map OutLine.str, false)
  | none => ([OutLine.str ("cat: " ++ p ++ ": No such file or directory")], true)

/-- The empty filesystem of the concrete redirection scenario. -/
def demoFS0 : SimFS := { files := [], denied := [] }

/-- Result of `echo hello > f` against the empty filesystem. -/
def demoStep1 : SimFS × List OutLine × Bool :=
  applyRedirect demoFS0 (echoCmd ["hello"]) false (some "f") false

/-- Result of `echo world >> f` against the filesystem after step one. -/
def demoStep2 : SimFS × List OutLine × Bool :=
  applyRedirect demoStep1.1 (echoCmd ["world"]) false (some "f") true

lemma find?_setFile (l : List (String × String)) (p c : String) :
    (setFile l p c).find? (fun e => e.1 = p) = some (p, c) := by
  induction l with
  | nil => simp [setFile, List.find?]
  | cons e rest ih =>
    by_cases h : e.1 = p
    · simp [setFile, h, List.find?]
    · simp only [setFile, if_neg h]
      rw [List.find?_cons_of_neg]
      · exact ih
      · simp [h]

lemma readFile_writeFile (fs fs2 : SimFS) (p c : String)
    (h : writeFile fs p c = some fs2) : readFile fs2 p = some c := by
  by_cases hd : fs.denied.contains p
  · rw [writeFile, if_pos hd] at h
    exact absurd h (by simp)
  · rw [writeFile, if_neg hd] at h
    obtain rfl := Option.some.injEq _ _ ▸ h.symm
    simp [readFile, find?_setFile]

/-- C5: when redirection is requested and the command produced non-empty
joined text, the text is written on overwrite, or appended after the
existing non-empty content plus a newline, with the visible output
suppressed on success; a failed write replaces the output with the failure
message and sets the error flag; the concrete scenario `echo hello > f`
then `cat f` yields `hello`, and `echo world >> f` then `cat f` yields
`hello` and `world` as separate lines. -/
theorem redirect_write (fs fs2 fs3 : SimFS) (output : List OutLine) (error : Bool)
    (rp txt ex : String)
    (htxt : String.intercalate "\n" (output.filterMap lineText) = txt)
    (htxtne : txt ≠ "") (hrpne : rp ≠ "") :
    ((writeFile fs rp txt = some fs2 →
        applyRedirect fs output error (some rp) false = (fs2, [], error)
        ∧ readFile fs2 rp = some txt))
    ∧ ((writeFile fs rp txt = none →
        applyRedirect fs output error (some rp) false
          = (fs, [OutLine.str ("Failed to write to " ++ rp)], true)))
    ∧ ((readFile fs rp = some ex → ex ≠ "" →
        writeFile fs rp (ex ++ "\n" ++ txt) = some fs3 →
        applyRedirect fs output error (some rp) true = (fs3, [], error)
        ∧ readFile fs3 rp = some (ex ++ "\n" ++ txt)))
    ∧ (parseRedirect "echo hello > f" = ("echo hello", some "f", false)
        ∧ parseRedirect "echo world >> f" = ("echo world", some "f", true)
        ∧ tokenize "echo hello" = ["echo", "hello"]
        ∧ demoStep1 = ({ files := [("f", "hello")], denied := [] }, [], false)
        ∧ catCmd demoStep1.1 "f" = ([OutLine.str "hello"], false)
        ∧ demoStep2.2.1 = []
        ∧ catCmd demoStep2.1 "f" = ([OutLine.str "hello", OutLine.str "world"], false)) := by
  have hread : ∀ b : Bool,
      (match readFile fs rp with
        | some existing =>
          if b && !(existing = "") then existing ++ "\n" ++ txt else txt
        | none => txt) = (if b then (match readFile fs rp with
            | some existing => if !(existing = "") then existing ++ "\n" ++ txt else txt
            | none => txt) else txt) := by
    intro b
    cases b <;> cases readFile fs rp <;> simp
  refine ⟨?_, ?_, ?_, by decide, by decide, by decide, by decide, by decide, by decide,
    by decide⟩
  · intro hw
    constructor
    · simp only [applyRedirect, if_neg hrpne, htxt, if_neg htxtne]
      cases hre : readFile fs rp <;> simp [hw]
    · exact readFile_writeFile fs fs2 rp txt hw
  · intro hw
    simp only [applyRedirect, if_neg hrpne, htxt, if_neg htxtne]
    cases hre : readFile fs rp <;> simp [hw]
  · intro hre hexne hw
    constructor
    · simp only [applyRedirect, if_neg hrpne, htxt, if_neg htxtne, hre]
      rw [if_pos (by simp [hexne])]
      simp [hw]
    · exact readFile_writeFile fs fs3 rp (ex ++ "\n" ++ txt) hw

/-- C5 witness: the general clauses applied at a concrete filesystem with a
writable and a denied path. -/
theorem redirect_write_witness :
    (applyRedirect { files := [], denied := ["locked"] } [OutLine.str "hi"] false
        (some "out") false
      = ({ files := [("out", "hi")], denied := ["locked"] }, [], false)
      ∧ readFile { files := [("out", "hi")], denied := ["locked"] } "out" = some "hi")
    ∧ (applyRedirect { files := [], denied := ["locked"] } [OutLine.str "hi"] false
        (some "locked") false
      = ({ files := [], denied := ["locked"] },
          [OutLine.str "Failed to write to locked"], true)) := by
  constructor
  · exact (redirect_write { files := [], denied := ["locked"] }
      { files := [("out", "hi")], denied := ["locked"] }
      { files := [], denied := [] } [OutLine.str "hi"] false "out" "hi" ""
      (by decide) (by decide) (by decide)).1 (by decide)
  · exact (redirect_write { files := [], denied := ["locked"] }
      { files := [], denied := [] }
      { files := [], denied := [] } [OutLine.str "hi"] false "locked" "hi" ""
      (by decide) (by decide) (by decide)).2.1 (by decide)

/-- C9: when a redirection target was parsed but the command produced no
string or number output lines, the joined text is empty, so no write
happens, the filesystem is untouched, and the output lines stay visible
with the error flag unchanged. -/
theorem redirect_no_text_lines (fs : SimFS) (output : List OutLine) (error : Bool)
    (rp : String) (app : Bool) (h : ∀ l ∈ output, lineText l = none) :
    applyRedirect fs output error (some rp) app = (fs, output, error) := by
  have hfm : output.filterMap lineText = [] := List.filterMap_eq_nil_iff.mpr h
  by_cases hrp : rp = ""
  · simp [applyRedirect, hrp]
  · simp [applyRedirect, if_neg hrp, hfm, String.intercalate]

/-- C9 witness: a command that produced only a rich node under redirection
leaves the filesystem and its visible output unchanged. -/
theorem redirect_no_text_lines_witness :
    applyRedirect { files := [("f", "old")], denied := [] } [OutLine.node] false
      (some "f") false
    = ({ files := [("f", "old")], denied := [] }, [OutLine.node], false) :=
  redirect_no_text_lines { files := [("f", "old")], denied := [] } [OutLine.node]
    false "f" false (by decide)

/-! Glob expansion, from `expandGlob` in the `Terminal` component.  The
source builds a JavaScript regular expression from the pattern by escaping
only `.` and turning `*` into `.*`, then tests every directory entry name
against it.  The `RTok`/`RElem` machinery below is an executable model of
the regular-expression fragment such constructed patterns can contain:
literal characters, an escaped character, the any-character dot, a simple
character class, and the star quantifier on the preceding atom.  Constructs
the builder cannot produce from patterns made of other characters (groups,
alternation, counted repetition, anchors in the middle) are outside the
model, and the theorems below restrict their patterns accordingly. -/

inductive RTok where
  | lit (c : Char)
  | anyChar
  | cls (cs : List Char)
deriving DecidableEq, Repr

inductive RElem where
  | one (t : RTok)
  | star (t : RTok)
deriving DecidableEq, Repr

def tokMatch : RTok → Char → Bool
  | .lit d, c => c = d
  | .anyChar, _ => true
  | .cls cs, c => cs.contains c

/-- Backtracking matcher for the modelled regular-expression fragment,
anchored at both ends as the source wraps the pattern in `^...$`.  The fuel
makes the recursion structural; every step shrinks the regex or the input,
so the wrapper fuel in `rmatch` always suffices. -/
def rmatchF : Nat → List RElem → List Char → Bool
  | 0, _, _ => false
  | _ + 1, [], s => s.isEmpty
  | fuel + 1, RElem.one t :: rs, s =>
    match s with
    | [] => false
    | c :: cs => tokMatch t c && rmatchF fuel rs cs
  | fuel + 1, RElem.star t :: rs, s =>
    match s with
    | [] => rmatchF fuel rs []
    | c :: cs => rmatchF fuel rs (c :: cs) || (tokMatch t c && rmatchF fuel (RElem.star t :: rs) cs)

def rmatch (rs : List RElem) (s : List Char) : Bool :=
  rmatchF (rs.length + s.length + 1) rs s

/-- The per-character regex construction of `expandGlob`: the source first
replaces every `.` with an escaped dot and then every `*` with `.*`; since
the first replacement introduces no `*` and the second acts on the original
stars, the two sequential replacements equal this per-character map. -/
def jsGlobRegex (c : Char) : List Char :=
  if c = '.' then ['\\', '.'] else if c = '*' then ['.', '*'] else [c]

def transform : List Char → List Char
  | [] => []
  | c :: cs => jsGlobRegex c ++ transform cs

/-- Fuel-driven parser of the constructed regex text into the modelled
token list: an escape takes the next character literally, `[` opens a
simple character class up to `]`, `.` is the any-character atom, anything
else is a literal, and a following `*` turns the atom into a star. -/
def parseRegexF : Nat → List Char → List RElem
  | 0, _ => []
  | fuel + 1, s =>
    match s with
    | [] => []
    | c :: rest =>
      if c = '\\' then
        match rest with
        | [] => []
        | d :: rest2 =>
          if rest2.head? = some '*' then RElem.star (RTok.lit d) :: parseRegexF fuel rest2.tail
          else RElem.one (RTok.lit d) :: parseRegexF fuel rest2
      else if c = '[' then
        let cs := rest.takeWhile (fun x => !(x = ']'))
        let rest1 := (rest.dropWhile (fun x => !(x = ']'))).tail
        if rest1.head? = some '*' then RElem.star (RTok.cls cs) :: parseRegexF fuel rest1.tail
        else RElem.one (RTok.cls cs) :: parseRegexF fuel rest1
      else
        let t := if c = '.' then RTok.anyChar else RTok.lit c
        if rest.head? = some '*' then RElem.star t :: parseRegexF fuel rest.tail
        else RElem.one t :: parseRegexF fuel rest

def parseRegex (s : List Char) : List RElem :=
  parseRegexF s.length s

/-- Modelled from the spec: the documented `FileNode` interface of the
filesystem (not under src/); the glob reads only `name`. -/
structure FileNode where
  id : String
  name : String
  ty : String
deriving DecidableEq, Repr

/-- Embeds `expandGlob`: a pattern without `*` or with a path separator is
returned unchanged, as is any pattern when the directory listing is null;
otherwise the entry names matching the constructed regex are returned, or
the literal pattern when none match.  The `cwd` argument is the listing of
the current working directory (`none` models a null `listDirectory`). -/
def expandGlob (pattern : String) (cwd : Option (List FileNode)) : List String :=
  if !(pattern.data.contains '*') then [pattern]
  else if pattern.data.contains '/' then [pattern]
  else
    match cwd with
    | none => [pattern]
    | some files =>
      let rs := parseRegex (transform pattern.data)
      let ms := (files.filter (fun f => rmatch rs f.name.data)).map (fun f => f.name)
      if ms.length > 0 then ms else [pattern]

/-- The compilation the specification describes: `*` becomes an
arbitrary-length wildcard and every other character is matched literally. -/
def specCompile (p : List Char) : List RElem :=
  p.map (fun c => if c = '*' then RElem.star RTok.anyChar else RElem.one (RTok.lit c))

/-- Glob expansion as the specification words it: expand only a pattern
containing `*` and no path separator, match whole entry names with `*` as
an arbitrary-length wildcard and all other characters literal, and fall
back to the literal pattern on zero matches. -/
def expandGlobSpec (pattern : String) (files : List FileNode) : List String :=
  if pattern.data.contains '*' && !(pattern.data.contains '/') then
    let ms := (files.filter (fun f => rmatch (specCompile pattern.data) f.name.data)).map
      (fun f => f.name)
    if ms.length > 0 then ms else [pattern]
  else [pattern]

/-- Characters whose constructed regex form is literal: everything except
the regex metacharacters the builder leaves unescaped (backslash, square
brackets, parentheses, braces, plus, question mark, caret, dollar, pipe);
the codepoints 123 and 125 are the two brace characters. -/
def plainChar (c : Char) : Bool :=
  !(c = '\\' || c = '[' || c = ']' || c = '(' || c = ')' || c = '+' || c = '?'
    || c = '^' || c = '$' || c = '|' || c.toNat = 123 || c.toNat = 125)

/-- The directory entries of the specification example. -/
def globDemoFiles : List FileNode :=
  [ { id := "1", name := "a.txt", ty := "file" },
    { id := "2", name := "b.txt", ty := "file" },
    { id := "3", name := "c.md", ty := "file" } ]

/-- A directory entry whose name a character-class pattern matches as a
regex but not as a literal glob. -/
def globClassFiles : List FileNode :=
  [ { id := "4", name := "ab", ty := "file" } ]

lemma transform_head_ne_star (p : List Char) : (transform p).head? ≠ some '*' := by
  cases p with
  | nil => simp [transform]
  | cons c cs =>
    simp only [transform, jsGlobRegex]
    by_cases h1 : c = '.'
    · simp [h1]
    · by_cases h2 : c = '*'
      · simp [h1, h2]
      · simp [h1, h2]

lemma parseF_dot (f : Nat) (T : List Char) (h : T.head? ≠ some '*') :
    parseRegexF (f + 1) ('\\' :: '.' :: T) = RElem.one (RTok.lit '.') :: parseRegexF f T := by
  cases T with
  | nil => rfl
  | cons d t =>
    have hd : ¬ d = '*' := by simpa using h
    simp [parseRegexF, hd]

lemma parseF_star (f : Nat) (T : List Char) :
    parseRegexF (f + 1) ('.' :: '*' :: T) = RElem.star RTok.anyChar :: parseRegexF f T := by
  rfl

lemma parseF_plain_lit (f : Nat) (c : Char) (T : List Char)
    (h1 : ¬ c = '\\') (h2 : ¬ c = '[') (h3 : ¬ c = '.') (h4 : T.head? ≠ some '*') :
    parseRegexF (f + 1) (c :: T) = RElem.one (RTok.lit c) :: parseRegexF f T := by
  cases T with
  | nil => simp [parseRegexF, h1, h2, h3]
  | cons d t =>
    have hd : ¬ d = '*' := by simpa using h4
    simp [parseRegexF, h1, h2, h3, hd]

lemma parse_transform_plain (p : List Char) (hp : ∀ c ∈ p, plainChar c = true) :
    ∀ f : Nat, (transform p).length ≤ f → parseRegexF f (transform p) = specCompile p := by
  induction p with
  | nil =>
    intro f hf
    cases f with
    | zero => simp [transform, parseRegexF, specCompile]
    | succ f => simp [transform, parseRegexF, specCompile]
  | cons c cs ih =>
    intro f hf
    have hc : plainChar c = true := hp c (List.mem_cons_self _ _)
    have hcs : ∀ x ∈ cs, plainChar x = true := fun x hx => hp x (List.mem_cons_of_mem _ hx)
    by_cases h1 : c = '.'
    · subst h1
      have htr : transform ('.' :: cs) = '\\' :: '.' :: transform cs := by
        simp [transform, jsGlobRegex]
      have hlen : (transform cs).length + 2 ≤ f := by
        have := hf
        rw [htr] at this
        simpa using this
      obtain ⟨f', rfl⟩ : ∃ f', f = f' + 1 := ⟨f - 1, by omega⟩
      rw [htr, parseF_dot f' (transform cs) (transform_head_ne_star cs),
        ih hcs f' (by omega)]
      simp [specCompile]
    · by_cases h2 : c = '*'
      · subst h2
        have htr : transform ('*' :: cs) = '.' :: '*' :: transform cs := by
          simp [transform, jsGlobRegex, h1]
        have hlen : (transform cs).length + 2 ≤ f := by
          have := hf
          rw [htr] at this
          simpa using this
        obtain ⟨f', rfl⟩ : ∃ f', f = f' + 1 := ⟨f - 1, by omega⟩
        rw [htr, parseF_star f' (transform cs), ih hcs f' (by omega)]
        simp [specCompile]
      · have hocc : ¬ c = '\\' ∧ ¬ c = '[' := by
          simp only [plainChar, Bool.not_eq_eq_eq_not, Bool.not_true, Bool.or_eq_false_iff,
            decide_eq_false_iff_not] at hc
          exact ⟨hc.1.1.1.1.1.1.1.1.1.1.1, hc.1.1.1.1.1.1.1.1.1.1.2⟩
        have htr : transform (c :: cs) = c :: transform cs := by
          simp [transform, jsGlobRegex, h1, h2]
        have hlen : (transform cs).length + 1 ≤ f := by
          have := hf
          rw [htr] at this
          simpa using this
        obtain ⟨f', rfl⟩ : ∃ f', f = f' + 1 := ⟨f - 1, by omega⟩
        rw [htr, parseF_plain_lit f' c (transform cs) hocc.1 hocc.2 h1
          (transform_head_ne_star cs), ih hcs f' (by omega)]
        simp [specCompile, h2]

/-- C4 counterexample: for the pattern `[ab]*` against the single directory
entry `ab`, the code expands to `ab` (the bracket pair acts as a regex
character class because only `.` is escaped), while the literal-glob
behaviour the claim describes finds no match and keeps the pattern. -/
theorem expandGlob_metachar_counterexample :
    expandGlob "[ab]*" (some globClassFiles) = ["ab"]
    ∧ expandGlobSpec "[ab]*" globClassFiles = ["[ab]*"]
    ∧ expandGlob "[ab]*" (some globClassFiles) ≠ expandGlobSpec "[ab]*" globClassFiles := by
  decide

/-- C4 (amended): for patterns containing none of the regex metacharacters
the builder leaves unescaped, expansion behaves exactly as the claim says:
an argument is expanded only if it contains `*` and no path separator, it
is matched whole-name against the directory entries with `*` as an
arbitrary-length wildcard and all other characters literal, a null listing
or zero matches yields the literal pattern, and `*.txt` against
a.txt, b.txt, c.md gives exactly a.txt, b.txt. -/
theorem expandGlob_plain_spec (pattern : String) (files : List FileNode)
    (ent : Option (List FileNode))
    (hplain : ∀ c ∈ pattern.data, plainChar c = true) :
    (expandGlob pattern (some files) = expandGlobSpec pattern files)
    ∧ (pattern.data.contains '*' = false → expandGlob pattern ent = [pattern])
    ∧ (pattern.data.contains '/' = true → expandGlob pattern ent = [pattern])
    ∧ (expandGlob pattern none = [pattern])
    ∧ (expandGlob "*.txt" (some globDemoFiles) = ["a.txt", "b.txt"]
        ∧ expandGlob "*.zip" (some globDemoFiles) = ["*.zip"]) := by
  have hp : parseRegex (transform pattern.data) = specCompile pattern.data :=
    parse_transform_plain pattern.data hplain _ (le_refl _)
  refine ⟨?_, ?_, ?_, ?_, by decide, by decide⟩
  · by_cases hstar : '*' ∈ pattern.data
    · by_cases hslash : '/' ∈ pattern.data
      · simp [expandGlob, expandGlobSpec, hstar, hslash]
      · simp [expandGlob, expandGlobSpec, hstar, hslash, hp]
    · simp [expandGlob, expandGlobSpec, hstar]
  · intro h
    have h2 : '*' ∉ pattern.data := by simpa using h
    cases ent <;> simp [expandGlob, h2]
  · intro h
    have h2 : '/' ∈ pattern.data := by simpa using h
    by_cases hstar : '*' ∈ pattern.data
    · cases ent <;> simp [expandGlob, hstar, h2]
    · cases ent <;> simp [expandGlob, hstar]
  · by_cases hstar : '*' ∈ pattern.data
    · by_cases hslash : '/' ∈ pattern.data
      · simp [expandGlob, hstar, hslash]
      · simp [expandGlob, hstar, hslash]
    · simp [expandGlob, hstar]

/-- C4 witness: the amended theorem applied at the specification example
pattern and entries. -/
theorem expandGlob_plain_spec_witness :
    (expandGlob "*.txt" (some globDemoFiles) = expandGlobSpec "*.txt" globDemoFiles)
    ∧ ("*.txt".data.contains '*' = false →
        expandGlob "*.txt" (some globDemoFiles) = ["*.txt"])
    ∧ ("*.txt".data.contains '/' = true →
        expandGlob "*.txt" (some globDemoFiles) = ["*.txt"])
    ∧ (expandGlob "*.txt" none = ["*.txt"])
    ∧ (expandGlob "*.txt" (some globDemoFiles) = ["a.txt", "b.txt"]
        ∧ expandGlob "*.zip" (some globDemoFiles) = ["*.zip"]) :=
  expandGlob_plain_spec "*.txt" globDemoFiles (some globDemoFiles) (by decide)

/-! Desktop icon drop handling, from `updateIconPosition` in the `OS`
component.  The grid transforms live in `gridSystem.ts`, which is not in
the corpus, so they are modelled from the specification; the branch logic
(conflict lookup, folder check, 35-pixel distance threshold, rearrange
fallback) is embedded from the source. -/

structure GridPosition where
  col : Int
  row : Int
deriving DecidableEq, Repr

/-- Modelled from the spec: `getGridConfig` derives cell size and origin
from the viewport; the drop handler only passes the config through to the
two transforms. -/
structure GridConfig where
  cellWidth : Int
  cellHeight : Int
  startX : Int
  startY : Int
deriving DecidableEq, Repr

/-- Modelled from the spec: `pixelToGrid`, a pure transform inverse to
`gridToPixel` up to rounding. -/
def pixelToGrid (x y : Int) (cfg : GridConfig) : GridPosition :=
  { col := (x - cfg.startX) / cfg.cellWidth, row := (y - cfg.startY) / cfg.cellHeight }

/-- Modelled from the spec: `gridToPixel`, the pure inverse transform. -/
def gridToPixel (p : GridPosition) (cfg : GridConfig) : Int × Int :=
  (cfg.startX + p.col * cfg.cellWidth, cfg.startY + p.row * cfg.cellHeight)

/-- Modelled from the spec: `gridPosToKey`, the string cell key compared to
detect occupancy. -/
def gridPosToKey (p : GridPosition) : String :=
  toString p.col ++ "," ++ toString p.row

/-- A desktop icon as derived by the `OS` component from the Desktop
listing: id, display name and the folder-or-file tag. -/
structure DesktopIcon where
  id : String
  name : String
  ty : String
deriving DecidableEq, Repr

/-- The stored icon-position map, id to grid cell. -/
def lookupPos (ps : List (String × GridPosition)) (id : String) : Option GridPosition :=
  (ps.find? (fun e => e.1 = id)).map (fun e => e.2)

def erasePos (ps : List (String × GridPosition)) (id : String) :
    List (String × GridPosition) :=
  ps.filter (fun e => !(e.1 = id))

def setPos : List (String × GridPosition) → String → GridPosition →
    List (String × GridPosition)
  | [], id, p => [(id, p)]
  | e :: rest, id, p => if e.1 = id then (id, p) :: rest else e :: setPos rest id p

/-- The effect an icon drop produces: reparent the dragged node into the
occupying folder (a `moveNodeById` call to the given destination) with the
dragged id removed from the position map, invoke `rearrangeGrid` with the
dragged id and target cell, or simply store the new cell. -/
inductive DropEffect where
  | merge (destPath : String) (newPositions : List (String × GridPosition))
  | rearranged (draggedId : String) (target : GridPosition)
  | placed (newPositions : List (String × GridPosition))
deriving DecidableEq, Repr

/-- Embeds `updateIconPosition`: convert the drop pixel to a grid cell,
find a different icon occupying that cell, and when the occupant is a
folder whose icon-visual center (cell pixel origin plus 50 in each axis)
is within 35 pixels of the dropped icon's center, reparent the dragged
node under the Desktop folder path and drop its position entry; otherwise
rearrange; with no conflict, store the cell.  The source compares
`Math.sqrt(dx*dx + dy*dy) < 35`, which for exact arithmetic equals
`dx*dx + dy*dy < 1225`. -/
def updateIconPosition (icons : List DesktopIcon)
    (positions : List (String × GridPosition)) (cfg : GridConfig)
    (id : String) (px py : Int) : DropEffect :=
  let targetGridPos := pixelToGrid px py cfg
  let targetCellKey := gridPosToKey targetGridPos
  let conflictingIcon := icons.find? (fun icon =>
    !(icon.id = id) && (match lookupPos positions icon.id with
      | some gp => gridPosToKey gp = targetCellKey
      | none => false))
  match conflictingIcon with
  | none => DropEffect.placed (setPos positions id targetGridPos)
  | some cIcon =>
    if cIcon.ty = "folder" then
      match lookupPos positions cIcon.id with
      | none => DropEffect.rearranged id targetGridPos
      | some cpos =>
        let tp := gridToPixel cpos cfg
        let dx := (tp.1 + 50) - (px + 50)
        let dy := (tp.2 + 50) - (py + 50)
        if dx * dx + dy * dy < 1225 then
          match icons.find? (fun i => i.id = id) with
          | some _ => DropEffect.merge ("~/Desktop/" ++ cIcon.name) (erasePos positions id)
          | none => DropEffect.rearranged id targetGridPos
        else DropEffect.rearranged id targetGridPos
    else DropEffect.rearranged id targetGridPos

lemma lookupPos_erasePos (ps : List (String × GridPosition)) (id : String) :
    lookupPos (erasePos ps id) id = none := by
  unfold lookupPos erasePos
  rw [List.find?_eq_none.mpr]
  · rfl
  · intro e he
    have := (List.mem_filter.mp he).2
    simpa using this

/-- C8: when the drop cell is occupied by a different icon, the occupant is
a folder, and the squared distance between the two icon-visual centers is
under the 35-pixel threshold squared, the drop reparents the dragged node
into that Desktop folder via the move call and removes the dragged id from
the position map (its entry no longer resolves); when the occupant is not
a folder, or the distance reaches the threshold, `rearrangeGrid` is invoked
with the dragged id and target cell instead. -/
theorem icon_drop_folder_merge (icons : List DesktopIcon)
    (positions : List (String × GridPosition)) (cfg : GridConfig)
    (id : String) (px py : Int) (c : DesktopIcon) (cpos : GridPosition)
    (src : DesktopIcon)
    (hfind : icons.find? (fun icon =>
      !(icon.id = id) && (match lookupPos positions icon.id with
        | some gp => gridPosToKey gp = gridPosToKey (pixelToGrid px py cfg)
        | none => false)) = some c)
    (hlook : lookupPos positions c.id = some cpos) :
    ((c.ty = "folder" → icons.find? (fun i => i.id = id) = some src →
        ((gridToPixel cpos cfg).1 + 50 - (px + 50)) * ((gridToPixel cpos cfg).1 + 50 - (px + 50))
          + ((gridToPixel cpos cfg).2 + 50 - (py + 50)) * ((gridToPixel cpos cfg).2 + 50 - (py + 50))
          < 1225 →
        updateIconPosition icons positions cfg id px py
          = DropEffect.merge ("~/Desktop/" ++ c.name) (erasePos positions id)
        ∧ lookupPos (erasePos positions id) id = none))
    ∧ ((¬ c.ty = "folder" →
        updateIconPosition icons positions cfg id px py
          = DropEffect.rearranged id (pixelToGrid px py cfg)))
    ∧ ((c.ty = "folder" →
        1225 ≤ ((gridToPixel cpos cfg).1 + 50 - (px + 50)) * ((gridToPixel cpos cfg).1 + 50 - (px + 50))
          + ((gridToPixel cpos cfg).2 + 50 - (py + 50)) * ((gridToPixel cpos cfg).2 + 50 - (py + 50)) →
        updateIconPosition icons positions cfg id px py
          = DropEffect.rearranged id (pixelToGrid px py cfg))) := by
  refine ⟨?_, ?_, ?_⟩
  · intro hty hsrc hdist
    simp only [updateIconPosition, hfind, hlook, hsrc]
    rw [if_pos hty, if_pos hdist]
    exact ⟨rfl, lookupPos_erasePos positions id⟩
  · intro hty
    simp only [updateIconPosition, hfind]
    rw [if_neg hty]
  · intro hty hdist
    simp only [updateIconPosition, hfind, hlook]
    rw [if_pos hty, if_neg (by omega)]

/-- The concrete desktop of the C8 witness: a folder at cell (0, 0) and a
file to drag, on a 100 by 100 grid anchored at the origin. -/
def demoCfg : GridConfig :=
  { cellWidth := 100, cellHeight := 100, startX := 0, startY := 0 }

def demoIcons : List DesktopIcon :=
  [ { id := "folder-1", name := "Projects", ty := "folder" },
    { id := "file-1", name := "notes.txt", ty := "file" } ]

def demoPositions : List (String × GridPosition) :=
  [ ("folder-1", { col := 0, row := 0 }), ("file-1", { col := 3, row := 0 }) ]

/-- C8 witness: dropping the file at pixel (10, 10), well inside the
35-pixel radius of the folder's visual center, merges it into the folder;
dropping it at (90, 90), still in the folder's cell but outside the
radius, rearranges instead. -/
theorem icon_drop_folder_merge_witness :
    (updateIconPosition demoIcons demoPositions demoCfg "file-1" 10 10
      = DropEffect.merge "~/Desktop/Projects" (erasePos demoPositions "file-1")
      ∧ lookupPos (erasePos demoPositions "file-1") "file-1" = none)
    ∧ (updateIconPosition demoIcons demoPositions demoCfg "file-1" 90 90
      = DropEffect.rearranged "file-1" (pixelToGrid 90 90 demoCfg)) := by
  constructor
  · exact (icon_drop_folder_merge demoIcons demoPositions demoCfg "file-1" 10 10
      { id := "folder-1", name := "Projects", ty := "folder" } { col := 0, row := 0 }
      { id := "file-1", name := "notes.txt", ty := "file" }
      (by decide) (by decide)).1 (by decide) (by decide) (by decide)
  · exact (icon_drop_folder_merge demoIcons demoPositions demoCfg "file-1" 90 90
      { id := "folder-1", name := "Projects", ty := "folder" } { col := 0, row := 0 }
      { id := "file-1", name := "notes.txt", ty := "file" }
      (by decide) (by decide)).2.2 (by decide) (by decide)

end Aurora
